import Mathlib

/-!
Shallow embedding of the expense query engine of
`src/src/tools.rs` (the "list_expenses" and "get_expense" arms of
`handle_tool_call`) over the record types of `src/src/types.rs`.

Machine integers (i64/i32) are modelled as `Int`; the Rust `as usize`
cast is modelled explicitly with `% 2^64`.  Serialized payloads whose
internal shape the engine never inspects (users, repayments, receipt,
created_by, updated_by, pictures, subcategories) are carried as opaque
JSON values.
-/

/-- JSON values: the target of the serde_json serialization used by the
field projection. -/
inductive Json where
  | null : Json
  | bool : Bool → Json
  | num : Int → Json
  | str : String → Json
  | arr : List Json → Json
  | obj : List (String × Json) → Json

/-- `UserReference` of types.rs (picture kept as an opaque serialized value). -/
structure UserRef where
  id : Int
  first_name : String
  last_name : Option String
  picture : Json

/-- `Category` of types.rs. -/
structure Category where
  id : Int
  name : String
  icon : Option String
  subcategories : Json

/-- `Expense` of types.rs. -/
structure Expense where
  id : Int
  group_id : Option Int
  friendship_id : Option Int
  expense_bundle_id : Option Int
  description : String
  repeats : Bool
  repeat_interval : Option String
  email_reminder : Bool
  email_reminder_in_advance : Option Int
  next_repeat : Option String
  details : Option String
  comments_count : Int
  payment : Bool
  creation_method : Option String
  transaction_method : Option String
  transaction_confirmed : Bool
  transaction_id : Option String
  transaction_status : Option String
  cost : String
  currency_code : String
  repayments : Json
  date : String
  created_at : String
  created_by : Json
  updated_at : String
  updated_by : Json
  deleted_at : Option String
  deleted_by : Option UserRef
  category : Category
  receipt : Json
  users : Json

/-- Substring test on character lists: the needle occurs contiguously in
the haystack (model of Rust `str::contains`). -/
def charsHaveSub (needle : List Char) : List Char → Bool
  | [] => needle.isEmpty
  | c :: rest => needle.isPrefixOf (c :: rest) || charsHaveSub needle rest

/-- `hay.contains(pat)` of Rust: `pat` occurs as a substring of `hay`. -/
def strContains (hay pat : String) : Bool :=
  charsHaveSub pat.data hay.data

/-- One search field test of the retain closure (tools.rs lines 495-514):
description, details (absent details never matches), category name;
any other requested field name matches nothing. -/
def searchFieldMatch (searchLower : String) (e : Expense) (f : String) : Bool :=
  if f = "description" then strContains e.description.toLower searchLower
  else if f = "details" then
    match e.details with
    | some d => strContains d.toLower searchLower
    | none => false
  else if f = "category" then strContains e.category.name.toLower searchLower
  else false

/-- The per-record filter of the batched search/category path
(tools.rs lines 462-521): deletion-visibility dispatch on the mode string
(Rust `match` on `&str`, i.e. equality dispatch), then category membership,
then text search over the requested fields with early acceptance. -/
def acceptsExpense (mode : String) (cids : Option (List Int))
    (searchLower : Option String) (sfields : List String) (e : Expense) : Bool :=
  let delPass : Bool :=
    if mode = "exclude" then !e.deleted_at.isSome
    else if mode = "only" then !e.deleted_at.isNone
    else if mode = "include" then true
    else !e.deleted_at.isSome
  if !delPass then false
  else if (match cids with
           | some ids => !(ids.contains e.category.id)
           | none => false) then false
  else
    match searchLower with
    | some s => sfields.any (searchFieldMatch s e)
    | none => true

/-- Deletion-only retain predicate of the non-search paths
(tools.rs lines 578-589 and 629-640): `exclude` keeps non-deleted,
`only` keeps deleted, anything else falls back to `exclude`. -/
def deletedRetain (mode : String) (e : Expense) : Bool :=
  if mode = "exclude" then e.deleted_at.isNone
  else if mode = "only" then e.deleted_at.isSome
  else e.deleted_at.isNone

/-- Spec-side deletion-visibility check, written from the claim's words:
`exclude` rejects a record with a deletion marker, `only` rejects one
without, `include` never rejects, an unrecognized mode behaves as
`exclude`. -/
def visPass (mode : String) (e : Expense) : Bool :=
  if mode = "include" then true
  else if mode = "only" then e.deleted_at.isSome
  else e.deleted_at.isNone

/-- Spec-side category check: if a category-id set is present the record's
category id must be a member of it. -/
def catPass (cids : Option (List Int)) (e : Expense) : Bool :=
  match cids with
  | some ids => ids.contains e.category.id
  | none => true

/-- Spec-side search check: if a search text is present, its lower-cased
form must occur as a substring of the lower-cased content of at least one
requested search field. -/
def searchPass (searchText : Option String) (sfields : List String) (e : Expense) : Bool :=
  match searchText with
  | some s => sfields.any (searchFieldMatch s.toLower e)
  | none => true

/-- C1 — The per-record filter accepts a record exactly when it passes the
deletion-visibility check, the category-membership check and the
text-search check, each taken independently as the spec states them. -/
theorem accepts_iff_all_checks (mode : String) (cids : Option (List Int))
    (searchText : Option String) (sfields : List String) (e : Expense) :
    acceptsExpense mode cids (searchText.map String.toLower) sfields e =
      (visPass mode e && catPass cids e && searchPass searchText sfields e) := by
  unfold acceptsExpense visPass catPass searchPass
  by_cases h1 : mode = "exclude" <;> by_cases h2 : mode = "only" <;>
    by_cases h3 : mode = "include" <;>
      cases searchText <;> cases cids <;>
        simp_all [Option.isNone_iff_eq_none] <;>
          cases e.deleted_at <;> simp_all

/-- Outcome of one invocation of the query core: the engine result (the
matched records, or the first fetch error), the `(limit, offset)` parameter
pairs of the Page Source calls issued, in order, and the accumulator
length observed after each processed batch. -/
structure EngineOut where
  result : Except String (List Expense)
  calls : List (Option Int × Option Int)
  lens : List Nat

/-- Intermediate outcome of the batched fetch loop: batched calls carry a
fixed limit of 100, so only their offsets are recorded. -/
structure LoopOut where
  result : Except String (List Expense)
  calls : List Int
  lens : List Nat

/-- The Page Source collaborator (`client.get_expenses` behind the HTTP
layer), specialised to one scope-filtered upstream dataset: `records` is
the stable server-ordered sequence, and `err` injects a transport/decode
failure for the given `(limit, offset)` parameter pair. -/
structure Source where
  records : List Expense
  err : Option Int → Option Int → Option String

/-- How many records a fetch returns under an optional advisory limit:
everything from the offset onward when no limit is passed. -/
def takeAmount (recs : List Expense) (limit : Option Int) : Nat :=
  match limit with
  | none => recs.length
  | some l => l.toNat

/-- `fetch_page(limit, offset)`: fail when the transport fails, otherwise
return the records from the offset onward, capped by the limit. -/
def fetchPage (s : Source) (limit offset : Option Int) : Except String (List Expense) :=
  match s.err limit offset with
  | some m => Except.error m
  | none =>
    Except.ok ((s.records.drop ((offset.getD 0).toNat)).take (takeAmount s.records limit))

/-- The loop-top stop test (tools.rs lines 438-443 / 556-561):
a set result-count cap that the accumulator has reached. -/
def capReached (cap : Option Nat) (len : Nat) : Bool :=
  match cap with
  | some c => c ≤ len
  | none => false

/-- The append phase of one loop iteration (tools.rs lines 524-531 /
592-599): push each filtered record, breaking as soon as the accumulator
reaches the cap; the rest of the batch is discarded. -/
def pushLoop (cap : Option Nat) : List Expense → List Expense → List Expense
  | acc, [] => acc
  | acc, e :: rest =>
    let acc2 := acc ++ [e]
    match cap with
    | some c => if c ≤ acc2.length then acc2 else pushLoop cap acc2 rest
    | none => pushLoop cap acc2 rest

/-- The offset annotation wrapped around a failed batch fetch in the
search/category path (tools.rs line 456). -/
def fetchErrMsg (off : Int) (m : String) : String :=
  "Failed to fetch batch at offset " ++ toString off ++ ": " ++ m

/-- The batch a list-backed Page Source returns for a fetch with limit 100
at the given offset. -/
def batchAt (recs : List Expense) (off : Int) : List Expense :=
  (recs.drop off.toNat).take 100

theorem batchAt_nonempty {recs : List Expense} {off : Int}
    (h : ¬(batchAt recs off).isEmpty = true) : off.toNat < recs.length := by
  by_contra hge
  apply h
  unfold batchAt
  rw [List.drop_eq_nil_of_le (by omega)]
  rfl

/-- Prepend one iteration's call offset and accumulator length to the
outcome of the remaining iterations. -/
def consCall (off : Int) (len : Nat) (rest : LoopOut) : LoopOut :=
  ⟨rest.result, off :: rest.calls, len :: rest.lens⟩

/-- The batched fetch loop (tools.rs lines 437-539, and lines 555-607 with
the deletion-only filter and no error annotation — the two loops differ
only in the per-record filter `filt` and the annotation flag `ann`):
stop when a set cap is reached; fetch the next batch of 100 at the current
offset (`fetchPage` at limit 100 is inlined: transport failure first, then
the batch contents); fail fast on a fetch error; filter the batch and
append under the cap; stop when the fetched batch was empty; otherwise
advance the offset by the batch size and repeat. -/
def runLoop (recs : List Expense) (err : Option Int → Option Int → Option String)
    (filt : Expense → Bool) (ann : Bool) (cap : Option Nat) (off : Int)
    (acc : List Expense) : LoopOut :=
  if capReached cap acc.length then
    ⟨Except.ok acc, [], []⟩
  else
    match err (some 100) (some off) with
    | some m => ⟨Except.error (if ann then fetchErrMsg off m else m), [off], []⟩
    | none =>
      if h : (batchAt recs off).isEmpty then
        ⟨Except.ok (pushLoop cap acc ((batchAt recs off).filter filt)), [off],
          [(pushLoop cap acc ((batchAt recs off).filter filt)).length]⟩
      else
        consCall off (pushLoop cap acc ((batchAt recs off).filter filt)).length
          (runLoop recs err filt ann cap (off + 100)
            (pushLoop cap acc ((batchAt recs off).filter filt)))
termination_by ((recs.length : Int) + 100 - off).toNat
decreasing_by
  have hlt : off.toNat < recs.length := batchAt_nonempty h
  omega

/-- The Rust `l as usize` reinterpretation of an i32 result-count cap
(tools.rs lines 432 and 551): sign extension into a 64-bit unsigned word. -/
def usizeOfI32 (l : Int) : Nat :=
  (l % (2 ^ 64 : Int)).toNat

/-- `expenses.truncate(limit)` applied after the loop when a cap was given
(tools.rs lines 542-544 and 610-612). -/
def truncateCap (cap : Option Nat) (l : List Expense) : List Expense :=
  match cap with
  | some c => l.take c
  | none => l

/-- Arguments of the "list_expenses" tool call (tools.rs lines 404-417).
The scope filters (group, friend, date range) are forwarded verbatim to
the Page Source and are absorbed into the `Source` value; they never
influence the engine logic. -/
structure ListArgs where
  limit : Option Int
  offset : Option Int
  fields : List String
  search_text : Option String
  search_fields : Option (List String)
  category_ids : Option (List Int)
  include_deleted : Option String

/-- The effective deletion-visibility mode: absent defaults to `exclude`
(tools.rs line 421). -/
def modeOf (args : ListArgs) : String :=
  args.include_deleted.getD "exclude"

/-- The default search-field set (tools.rs lines 428-430). -/
def defaultSearchFields : List String :=
  ["description", "details", "category"]

/-- The "list_expenses" query core (tools.rs lines 418-643): the batched
search/category path, the batched deletion-with-limit path, and the
single-call path with its after-the-fact deletion filtering. -/
def listExpensesCore (args : ListArgs) (src : Source) : EngineOut :=
  let mode := modeOf args
  if args.search_text.isSome || args.category_ids.isSome then
    let cap := args.limit.map usizeOfI32
    let out := runLoop src.records src.err
      (acceptsExpense mode args.category_ids (args.search_text.map String.toLower)
        (args.search_fields.getD defaultSearchFields))
      true cap (args.offset.getD 0) []
    ⟨out.result.map (truncateCap cap), out.calls.map (fun o => (some 100, some o)), out.lens⟩
  else if (mode != "include") && args.limit.isSome then
    let cap := args.limit.map usizeOfI32
    let out := runLoop src.records src.err (deletedRetain mode) false
      cap (args.offset.getD 0) []
    ⟨out.result.map (truncateCap cap), out.calls.map (fun o => (some 100, some o)), out.lens⟩
  else
    match fetchPage src args.limit args.offset with
    | Except.error m => ⟨Except.error m, [(args.limit, args.offset)], []⟩
    | Except.ok recs =>
      let kept := if mode != "include" then recs.filter (deletedRetain mode) else recs
      ⟨Except.ok kept, [(args.limit, args.offset)], [kept.length]⟩

/-- A Page Source over a fixed dataset whose transport never fails. -/
def Source.ofList (recs : List Expense) : Source :=
  ⟨recs, fun _ _ => none⟩

/-- serde serialization of an optional integer: absent becomes `null`. -/
def jsonOfOptInt : Option Int → Json
  | none => Json.null
  | some n => Json.num n

/-- serde serialization of an optional string: absent becomes `null`. -/
def jsonOfOptStr : Option String → Json
  | none => Json.null
  | some s => Json.str s

/-- serde serialization of a `UserReference`: always an object. -/
def jsonOfUserRef (u : UserRef) : Json :=
  Json.obj [("id", Json.num u.id), ("first_name", Json.str u.first_name),
    ("last_name", jsonOfOptStr u.last_name), ("picture", u.picture)]

/-- serde serialization of an optional `UserReference`. -/
def jsonOfOptUserRef : Option UserRef → Json
  | none => Json.null
  | some u => jsonOfUserRef u

/-- `serde_json::Map::insert`: replace the value of an existing key,
otherwise append the new entry. -/
def insertKV : List (String × Json) → String → Json → List (String × Json)
  | [], k, v => [(k, v)]
  | (k', v') :: rest, k, v =>
    if k' == k then (k, v) :: rest else (k', v') :: insertKV rest k v

/-- Key lookup in the projected map. -/
def lookupKV (m : List (String × Json)) (k : String) : Option Json :=
  (m.find? (fun p => p.1 == k)).map (fun p => p.2)

/-- One field-name dispatch step of the projection built inline in the
"list_expenses" path (tools.rs lines 648-692). -/
def stepListPath (e : Expense) (m : List (String × Json)) (field : String) :
    List (String × Json) :=
  match field with
  | "id" => insertKV m "id" (Json.num e.id)
  | "description" => insertKV m "description" (Json.str e.description)
  | "cost" => insertKV m "cost" (Json.str e.cost)
  | "currency_code" => insertKV m "currency_code" (Json.str e.currency_code)
  | "date" => insertKV m "date" (Json.str e.date)
  | "category" =>
    insertKV m "category"
      (Json.obj [("id", Json.num e.category.id), ("name", Json.str e.category.name)])
  | "payment" => insertKV m "payment" (Json.bool e.payment)
  | "group_id" => insertKV m "group_id" (jsonOfOptInt e.group_id)
  | "friendship_id" => insertKV m "friendship_id" (jsonOfOptInt e.friendship_id)
  | "details" => insertKV m "details" (jsonOfOptStr e.details)
  | "users" => insertKV m "users" e.users
  | "repayments" => insertKV m "repayments" e.repayments
  | "created_at" => insertKV m "created_at" (Json.str e.created_at)
  | "created_by" => insertKV m "created_by" e.created_by
  | "updated_at" => insertKV m "updated_at" (Json.str e.updated_at)
  | "updated_by" => insertKV m "updated_by" e.updated_by
  | "deleted_at" =>
    if e.deleted_at.isSome then insertKV m "deleted_at" (jsonOfOptStr e.deleted_at) else m
  | "deleted_by" =>
    if e.deleted_by.isSome then insertKV m "deleted_by" (jsonOfOptUserRef e.deleted_by) else m
  | "receipt" => insertKV m "receipt" e.receipt
  | "comments_count" => insertKV m "comments_count" (Json.num e.comments_count)
  | "transaction_confirmed" =>
    insertKV m "transaction_confirmed" (Json.bool e.transaction_confirmed)
  | "transaction_id" => insertKV m "transaction_id" (jsonOfOptStr e.transaction_id)
  | "transaction_method" => insertKV m "transaction_method" (jsonOfOptStr e.transaction_method)
  | "transaction_status" => insertKV m "transaction_status" (jsonOfOptStr e.transaction_status)
  | "repeats" => insertKV m "repeats" (Json.bool e.repeats)
  | "repeat_interval" => insertKV m "repeat_interval" (jsonOfOptStr e.repeat_interval)
  | "next_repeat" => insertKV m "next_repeat" (jsonOfOptStr e.next_repeat)
  | "email_reminder" => insertKV m "email_reminder" (Json.bool e.email_reminder)
  | "email_reminder_in_advance" =>
    insertKV m "email_reminder_in_advance" (jsonOfOptInt e.email_reminder_in_advance)
  | "expense_bundle_id" => insertKV m "expense_bundle_id" (jsonOfOptInt e.expense_bundle_id)
  | _ => m

/-- The field projection of the "list_expenses" path (tools.rs lines
646-694): an empty map grown by dispatching each requested name in order. -/
def projectListPath (e : Expense) (fields : List String) : List (String × Json) :=
  fields.foldl (stepListPath e) []

/-- One field-name dispatch step of the projection built inline in the
"get_expense" path (tools.rs lines 709-751) — maintained separately in the
source, duplicated character for character. -/
def stepGetPath (e : Expense) (m : List (String × Json)) (field : String) :
    List (String × Json) :=
  match field with
  | "id" => insertKV m "id" (Json.num e.id)
  | "description" => insertKV m "description" (Json.str e.description)
  | "cost" => insertKV m "cost" (Json.str e.cost)
  | "currency_code" => insertKV m "currency_code" (Json.str e.currency_code)
  | "date" => insertKV m "date" (Json.str e.date)
  | "category" =>
    insertKV m "category"
      (Json.obj [("id", Json.num e.category.id), ("name", Json.str e.category.name)])
  | "payment" => insertKV m "payment" (Json.bool e.payment)
  | "group_id" => insertKV m "group_id" (jsonOfOptInt e.group_id)
  | "friendship_id" => insertKV m "friendship_id" (jsonOfOptInt e.friendship_id)
  | "details" => insertKV m "details" (jsonOfOptStr e.details)
  | "users" => insertKV m "users" e.users
  | "repayments" => insertKV m "repayments" e.repayments
  | "created_at" => insertKV m "created_at" (Json.str e.created_at)
  | "created_by" => insertKV m "created_by" e.created_by
  | "updated_at" => insertKV m "updated_at" (Json.str e.updated_at)
  | "updated_by" => insertKV m "updated_by" e.updated_by
  | "deleted_at" =>
    if e.deleted_at.isSome then insertKV m "deleted_at" (jsonOfOptStr e.deleted_at) else m
  | "deleted_by" =>
    if e.deleted_by.isSome then insertKV m "deleted_by" (jsonOfOptUserRef e.deleted_by) else m
  | "receipt" => insertKV m "receipt" e.receipt
  | "comments_count" => insertKV m "comments_count" (Json.num e.comments_count)
  | "transaction_confirmed" =>
    insertKV m "transaction_confirmed" (Json.bool e.transaction_confirmed)
  | "transaction_id" => insertKV m "transaction_id" (jsonOfOptStr e.transaction_id)
  | "transaction_method" => insertKV m "transaction_method" (jsonOfOptStr e.transaction_method)
  | "transaction_status" => insertKV m "transaction_status" (jsonOfOptStr e.transaction_status)
  | "repeats" => insertKV m "repeats" (Json.bool e.repeats)
  | "repeat_interval" => insertKV m "repeat_interval" (jsonOfOptStr e.repeat_interval)
  | "next_repeat" => insertKV m "next_repeat" (jsonOfOptStr e.next_repeat)
  | "email_reminder" => insertKV m "email_reminder" (Json.bool e.email_reminder)
  | "email_reminder_in_advance" =>
    insertKV m "email_reminder_in_advance" (jsonOfOptInt e.email_reminder_in_advance)
  | "expense_bundle_id" => insertKV m "expense_bundle_id" (jsonOfOptInt e.expense_bundle_id)
  | _ => m

/-- The field projection of the "get_expense" path (tools.rs lines 707-753). -/
def projectGetPath (e : Expense) (fields : List String) : List (String × Json) :=
  fields.foldl (stepGetPath e) []

/-- The "list_expenses" tool call end to end: run the query core, then
project every matched record to the requested fields. -/
def listExpensesTool (args : ListArgs) (src : Source) : Except String (List Json) :=
  (listExpensesCore args src).result.map
    (fun l => l.map (fun e => Json.obj (projectListPath e args.fields)))

/-- The 30 field names the projection dispatch recognizes, in source order. -/
def recognizedFields : List String :=
  ["id", "description", "cost", "currency_code", "date", "category", "payment",
   "group_id", "friendship_id", "details", "users", "repayments", "created_at",
   "created_by", "updated_at", "updated_by", "deleted_at", "deleted_by",
   "receipt", "comments_count", "transaction_confirmed", "transaction_id",
   "transaction_method", "transaction_status", "repeats", "repeat_interval",
   "next_repeat", "email_reminder", "email_reminder_in_advance", "expense_bundle_id"]

/-- Null-suppression guard from the claim's words: `deleted_at` and
`deleted_by` may appear only when the record carries the respective
deletion value. -/
def suppressOk (e : Expense) (f : String) : Bool :=
  (if f = "deleted_at" then e.deleted_at.isSome else true) &&
    (if f = "deleted_by" then e.deleted_by.isSome else true)

/-- A requested field name actually lands in the projection: it is
recognized and survives null-suppression. -/
def activeField (e : Expense) (f : String) : Bool :=
  recognizedFields.contains f && suppressOk e f

/-- The record's stored value for each recognized field, as the claim
describes the accessor table (unrecognized names have no stored value). -/
def storedFieldValue (e : Expense) (f : String) : Json :=
  match f with
  | "id" => Json.num e.id
  | "description" => Json.str e.description
  | "cost" => Json.str e.cost
  | "currency_code" => Json.str e.currency_code
  | "date" => Json.str e.date
  | "category" =>
    Json.obj [("id", Json.num e.category.id), ("name", Json.str e.category.name)]
  | "payment" => Json.bool e.payment
  | "group_id" => jsonOfOptInt e.group_id
  | "friendship_id" => jsonOfOptInt e.friendship_id
  | "details" => jsonOfOptStr e.details
  | "users" => e.users
  | "repayments" => e.repayments
  | "created_at" => Json.str e.created_at
  | "created_by" => e.created_by
  | "updated_at" => Json.str e.updated_at
  | "updated_by" => e.updated_by
  | "deleted_at" => jsonOfOptStr e.deleted_at
  | "deleted_by" => jsonOfOptUserRef e.deleted_by
  | "receipt" => e.receipt
  | "comments_count" => Json.num e.comments_count
  | "transaction_confirmed" => Json.bool e.transaction_confirmed
  | "transaction_id" => jsonOfOptStr e.transaction_id
  | "transaction_method" => jsonOfOptStr e.transaction_method
  | "transaction_status" => jsonOfOptStr e.transaction_status
  | "repeats" => Json.bool e.repeats
  | "repeat_interval" => jsonOfOptStr e.repeat_interval
  | "next_repeat" => jsonOfOptStr e.next_repeat
  | "email_reminder" => Json.bool e.email_reminder
  | "email_reminder_in_advance" => jsonOfOptInt e.email_reminder_in_advance
  | "expense_bundle_id" => jsonOfOptInt e.expense_bundle_id
  | _ => Json.null

theorem lookupKV_insert_self (m : List (String × Json)) (k : String) (v : Json) :
    lookupKV (insertKV m k v) k = some v := by
  induction m with
  | nil => simp [insertKV, lookupKV]
  | cons p rest ih =>
    by_cases h : p.1 = k
    · simp [insertKV, lookupKV, h]
    · simp only [insertKV]
      rw [if_neg (by simp [h])]
      simpa [lookupKV, h] using ih

theorem lookupKV_insert_ne (m : List (String × Json)) (k' k : String) (v : Json)
    (h : k' ≠ k) : lookupKV (insertKV m k' v) k = lookupKV m k := by
  induction m with
  | nil => simp [insertKV, lookupKV, h]
  | cons p rest ih =>
    by_cases hp : p.1 = k'
    · simp [insertKV, lookupKV, hp, h]
    · simp only [insertKV]
      rw [if_neg (by simp [hp])]
      by_cases hk : p.1 = k
      · simp [lookupKV, hk]
      · simpa [lookupKV, hk] using ih

theorem stepListPath_eq (e : Expense) (m : List (String × Json)) (f : String) :
    stepListPath e m f =
      if activeField e f then insertKV m f (storedFieldValue e f) else m := by
  unfold stepListPath
  split
  all_goals first
    | rfl
    | ((cases hd : e.deleted_at <;>
        simp [activeField, recognizedFields, suppressOk, storedFieldValue, hd]) <;> done)
    | ((cases hd : e.deleted_by <;>
        simp [activeField, recognizedFields, suppressOk, storedFieldValue, hd]) <;> done)
    | (simp [activeField, recognizedFields, suppressOk, storedFieldValue]; done)
    | (simp_all [activeField, recognizedFields, suppressOk])

theorem lookupKV_foldl_stepListPath (e : Expense) :
    ∀ (fs : List String) (m : List (String × Json)) (k : String),
    lookupKV (fs.foldl (stepListPath e) m) k =
      if fs.contains k && activeField e k then some (storedFieldValue e k)
      else lookupKV m k := by
  intro fs
  induction fs with
  | nil => intro m k; simp
  | cons f rest ih =>
    intro m k
    simp only [List.foldl_cons, ih, stepListPath_eq, List.contains_cons]
    by_cases hA : activeField e k = true
    · by_cases hrk : k ∈ rest
      · simp [hA, hrk]
      · by_cases hfk : f = k
        · subst hfk
          simp [hA, hrk, lookupKV_insert_self]
        · by_cases hAf : activeField e f = true <;>
            simp [hA, hrk, hAf, hfk, Ne.symm hfk, lookupKV_insert_ne m f k _ hfk]
    · by_cases hfk : f = k
      · subst hfk
        simp [hA]
      · by_cases hAf : activeField e f = true <;>
          simp [hA, hAf, hfk, Ne.symm hfk, lookupKV_insert_ne m f k _ hfk]

/-- C6 — The projection holds exactly the recognized requested fields:
a key is present iff it was requested, is recognized, and survives the
null-suppression of `deleted_at`/`deleted_by`, in which case it carries
the record's stored value; the two suppressed keys are never written as
null; and `category` projects to the nested id-and-name object. -/
theorem projection_exact_fields (e : Expense) (fields : List String) (k : String) :
    (lookupKV (projectListPath e fields) k =
      if fields.contains k && activeField e k then some (storedFieldValue e k) else none)
    ∧ lookupKV (projectListPath e fields) "deleted_at" ≠ some Json.null
    ∧ lookupKV (projectListPath e fields) "deleted_by" ≠ some Json.null
    ∧ (fields.contains "category" = true →
        lookupKV (projectListPath e fields) "category" =
          some (Json.obj [("id", Json.num e.category.id),
            ("name", Json.str e.category.name)])) := by
  refine ⟨?_, ?_, ?_, ?_⟩
  · simpa [projectListPath, lookupKV] using lookupKV_foldl_stepListPath e fields [] k
  · cases hd : e.deleted_at with
    | none =>
      rw [projectListPath, lookupKV_foldl_stepListPath]
      simp [activeField, suppressOk, lookupKV, hd]
    | some s =>
      rw [projectListPath, lookupKV_foldl_stepListPath]
      split
      · simp [storedFieldValue, jsonOfOptStr, hd]
      · simp [lookupKV]
  · cases hd : e.deleted_by with
    | none =>
      rw [projectListPath, lookupKV_foldl_stepListPath]
      simp [activeField, suppressOk, lookupKV, hd]
    | some u =>
      rw [projectListPath, lookupKV_foldl_stepListPath]
      split
      · simp [storedFieldValue, jsonOfOptUserRef, jsonOfUserRef, hd]
      · simp [lookupKV]
  · intro hc
    have hcm : "category" ∈ fields := by simpa using hc
    rw [projectListPath, lookupKV_foldl_stepListPath]
    simp [activeField, suppressOk, recognizedFields, storedFieldValue, hcm]

/-- C10 — The field projection built inline by the "list_expenses" path
and the one built inline by the "get_expense" path produce identical maps
on every record and every requested field-name list. -/
theorem projection_paths_agree (e : Expense) (fields : List String) :
    projectListPath e fields = projectGetPath e fields := rfl

theorem pushLoop_none (l : List Expense) : ∀ acc, pushLoop none acc l = acc ++ l := by
  induction l with
  | nil => intro acc; simp [pushLoop]
  | cons e rest ih => intro acc; simp [pushLoop, ih]

theorem pushLoop_some_le (c : Nat) :
    ∀ (l acc : List Expense), acc.length < c → (pushLoop (some c) acc l).length ≤ c := by
  intro l
  induction l with
  | nil => intro acc h; simpa [pushLoop] using Nat.le_of_lt h
  | cons e rest ih =>
    intro acc h
    rw [pushLoop]
    show (if c ≤ (acc ++ [e]).length then acc ++ [e]
      else pushLoop (some c) (acc ++ [e]) rest).length ≤ c
    split
    · rename_i hc
      simp at hc ⊢
      omega
    · rename_i hc
      exact ih (acc ++ [e]) (by simp at hc ⊢; omega)

theorem runLoop_noCap_pure (recs : List Expense) (filt : Expense → Bool) (ann : Bool) :
    ∀ (off : Int) (acc : List Expense), 0 ≤ off →
    (runLoop recs (fun _ _ => none) filt ann none off acc).result =
      Except.ok (acc ++ (recs.drop off.toNat).filter filt) := by
  intro off acc
  induction off, acc using runLoop.induct recs (fun _ _ => none) filt ann none with
  | case1 off acc hcap => simp [capReached] at hcap
  | case2 off acc hcap m hm => simp at hm
  | case3 off acc hcap hm hb =>
    intro hoff
    have hdrop : recs.drop off.toNat = [] := by
      unfold batchAt at hb
      rcases (List.take_eq_nil_iff).mp (List.isEmpty_iff.mp hb) with h | h
      · exact absurd h (by omega)
      · exact h
    rw [runLoop]
    simp [hcap, hb, batchAt, hdrop, pushLoop]
  | case4 off acc hcap hm hb ih =>
    intro hoff
    rw [runLoop]
    simp only [hcap, if_false, Bool.false_eq_true]
    rw [dif_neg hb]
    simp only [consCall]
    rw [ih (by omega), pushLoop_none]
    have h1 : (off + 100).toNat = off.toNat + 100 := by omega
    rw [h1, batchAt, ← List.drop_drop, List.append_assoc, ← List.filter_append,
      List.take_append_drop]

theorem runLoop_cap_bound (recs : List Expense)
    (err : Option Int → Option Int → Option String) (filt : Expense → Bool)
    (ann : Bool) (c : Nat) :
    ∀ (off : Int) (acc : List Expense), acc.length ≤ c →
    ((∀ res, (runLoop recs err filt ann (some c) off acc).result = Except.ok res →
        res.length ≤ c)
      ∧ ∀ n ∈ (runLoop recs err filt ann (some c) off acc).lens, n ≤ c) := by
  intro off acc
  induction off, acc using runLoop.induct recs err filt ann (some c) with
  | case1 off acc hcap =>
    intro hle
    rw [runLoop]
    simp only [hcap, if_true]
    refine ⟨?_, by simp⟩
    intro res h
    simp only [Except.ok.injEq] at h
    rw [← h]
    exact hle
  | case2 off acc hcap m hm =>
    intro hle
    rw [runLoop]
    simp [hcap, hm]
  | case3 off acc hcap hm hb =>
    intro hle
    have hlt : acc.length < c := by
      simp [capReached] at hcap
      omega
    rw [runLoop]
    simp only [hcap, if_false, hm, hb, dif_pos, Bool.false_eq_true]
    have hp := pushLoop_some_le c ((batchAt recs off).filter filt) acc hlt
    refine ⟨?_, by simpa using hp⟩
    intro res h
    simp only [Except.ok.injEq] at h
    rw [← h]
    exact hp
  | case4 off acc hcap hm hb ih =>
    intro hle
    have hlt : acc.length < c := by
      simp [capReached] at hcap
      omega
    have hp := pushLoop_some_le c ((batchAt recs off).filter filt) acc hlt
    rw [runLoop]
    simp only [hcap, if_false, hm, Bool.false_eq_true]
    rw [dif_neg hb]
    simp only [consCall]
    refine ⟨(ih hp).1, ?_⟩
    intro n hn
    rcases List.mem_cons.mp hn with h | h
    · omega
    · exact (ih hp).2 n h

theorem runLoop_calls_bound (recs : List Expense)
    (err : Option Int → Option Int → Option String) (filt : Expense → Bool)
    (ann : Bool) (cap : Option Nat) :
    ∀ (off : Int) (acc : List Expense), 0 ≤ off →
    (runLoop recs err filt ann cap off acc).calls.length ≤
      (recs.length - off.toNat + 99) / 100 + 1 := by
  intro off acc
  induction off, acc using runLoop.induct recs err filt ann cap with
  | case1 off acc hcap =>
    intro hoff
    rw [runLoop]
    simp [hcap]
  | case2 off acc hcap m hm =>
    intro hoff
    rw [runLoop]
    simp [hcap, hm]
  | case3 off acc hcap hm hb =>
    intro hoff
    rw [runLoop]
    simp [hcap, hm, hb]
  | case4 off acc hcap hm hb ih =>
    intro hoff
    have hlt : off.toNat < recs.length := batchAt_nonempty hb
    have hih := ih (by omega)
    rw [runLoop]
    simp only [hcap, if_false, hm, Bool.false_eq_true]
    rw [dif_neg hb]
    simp only [consCall, List.length_cons]
    have h1 : (off + 100).toNat = off.toNat + 100 := by omega
    rw [h1] at hih
    omega

theorem runLoop_calls_chain (recs : List Expense)
    (err : Option Int → Option Int → Option String) (filt : Expense → Bool)
    (ann : Bool) (cap : Option Nat) :
    ∀ (off : Int) (acc : List Expense),
    List.Chain' (fun a b => a < b ∧ b = a + 100)
        (runLoop recs err filt ann cap off acc).calls
      ∧ ∀ o, (runLoop recs err filt ann cap off acc).calls.head? = some o → o = off := by
  intro off acc
  induction off, acc using runLoop.induct recs err filt ann cap with
  | case1 off acc hcap =>
    rw [runLoop]
    simp [hcap]
  | case2 off acc hcap m hm =>
    rw [runLoop]
    simp [hcap, hm]
  | case3 off acc hcap hm hb =>
    rw [runLoop]
    simp [hcap, hm, hb]
  | case4 off acc hcap hm hb ih =>
    rw [runLoop]
    simp only [hcap, if_false, hm, Bool.false_eq_true]
    rw [dif_neg hb]
    simp only [consCall]
    constructor
    · rw [List.chain'_cons']
      refine ⟨?_, ih.1⟩
      intro b hb2
      have := ih.2 b hb2
      omega
    · intro o h
      simp at h
      omega

/-- C4 — For any offset ≥ 0 against a finite dataset (an out-of-range fetch
returns an empty batch), the batched fetch loop terminates — it is a total
function — and issues at most ⌈(N − offset)/100⌉ + 1 Page Source calls,
whatever the cap, the filter and the failure pattern. -/
theorem loop_terminates_within_call_bound (recs : List Expense)
    (err : Option Int → Option Int → Option String) (filt : Expense → Bool)
    (ann : Bool) (cap : Option Nat) (off : Int) (acc : List Expense)
    (hoff : 0 ≤ off) :
    (runLoop recs err filt ann cap off acc).calls.length ≤
      (recs.length - off.toNat + 99) / 100 + 1 :=
  runLoop_calls_bound recs err filt ann cap off acc hoff

/-- C9 — In every run of the batched fetch loop the offsets of successive
Page Source calls are strictly increasing, each exceeding the previous one
by exactly the batch size 100. -/
theorem loop_offsets_increase_by_batch (recs : List Expense)
    (err : Option Int → Option Int → Option String) (filt : Expense → Bool)
    (ann : Bool) (cap : Option Nat) (off : Int) (acc : List Expense) :
    List.Chain' (fun a b => a < b ∧ b = a + 100)
      (runLoop recs err filt ann cap off acc).calls :=
  (runLoop_calls_chain recs err filt ann cap off acc).1

theorem usizeOfI32_eq_toNat {l : Int} (h0 : 0 ≤ l) (hr : l < 2 ^ 31) :
    usizeOfI32 l = l.toNat := by
  unfold usizeOfI32
  have h64 : (2 : Int) ^ 64 = 18446744073709551616 := by norm_num
  have h31 : (2 : Int) ^ 31 = 2147483648 := by norm_num
  rw [h64]
  rw [h31] at hr
  omega

theorem except_map_truncate_le {r : Except String (List Expense)} {c : Nat}
    {res : List Expense} (h : r.map (truncateCap (some c)) = Except.ok res) :
    res.length ≤ c := by
  cases r with
  | error m => simp [Except.map] at h
  | ok v =>
    simp [Except.map, truncateCap] at h
    rw [← h]
    simp [List.length_take]

/-- C3 — With a (well-formed i32) result-count cap, the returned list never
exceeds the cap and the accumulator length observed after every batch of
the run never exceeds it either. -/
theorem cap_respected (args : ListArgs) (src : Source) (l : Int)
    (hl : args.limit = some l) (h0 : 0 ≤ l) (hr : l < 2 ^ 31) :
    (∀ res, (listExpensesCore args src).result = Except.ok res →
        res.length ≤ l.toNat)
    ∧ ∀ n ∈ (listExpensesCore args src).lens, n ≤ l.toNat := by
  have hu : usizeOfI32 l = l.toNat := usizeOfI32_eq_toNat h0 hr
  unfold listExpensesCore
  by_cases hs : (args.search_text.isSome || args.category_ids.isSome) = true
  · simp only [hs, if_true, hl, Option.map_some', hu]
    refine ⟨fun res h => except_map_truncate_le h, ?_⟩
    intro n hn
    exact (runLoop_cap_bound src.records src.err _ true l.toNat
      (args.offset.getD 0) [] (by simp)).2 n hn
  · simp only [hs, if_false, Bool.false_eq_true]
    by_cases hm2 : (modeOf args != "include") = true
    · simp only [hl, hm2, Option.isSome_some, Bool.and_true, if_true,
        Option.map_some', hu]
      refine ⟨fun res h => except_map_truncate_le h, ?_⟩
      intro n hn
      exact (runLoop_cap_bound src.records src.err _ false l.toNat
        (args.offset.getD 0) [] (by simp)).2 n hn
    · simp only [hl, hm2, Option.isSome_some, Bool.and_true, if_false,
        Bool.false_eq_true]
      cases hfp : fetchPage src (some l) args.offset with
      | error m =>
        simp only [hfp]
        constructor
        · intro res h
          simp at h
        · intro n hn
          simp at hn
      | ok v =>
        have hv : v.length ≤ l.toNat := by
          unfold fetchPage at hfp
          cases he : src.err (some l) args.offset with
          | some m => rw [he] at hfp; simp at hfp
          | none =>
            rw [he] at hfp
            simp only [Except.ok.injEq] at hfp
            rw [← hfp]
            simp [takeAmount, List.length_take]
        simp only [hfp, hm2, Bool.false_eq_true, if_false]
        constructor
        · intro res h
          simp only [Except.ok.injEq] at h
          rw [← h]
          exact hv
        · intro n hn
          simp at hn
          omega

theorem truncateCap_none_map (r : Except String (List Expense)) :
    r.map (truncateCap none) = r := by
  cases r <;> simp [truncateCap, Except.map]

theorem acceptsExpense_no_search_cat (mode : String) (sf : List String) (e : Expense) :
    acceptsExpense mode none none sf e =
      (if mode = "include" then true else deletedRetain mode e) := by
  unfold acceptsExpense deletedRetain
  by_cases h1 : mode = "exclude" <;> by_cases h2 : mode = "only" <;>
    by_cases h3 : mode = "include" <;> simp_all <;>
      (cases e.deleted_at <;> simp_all)

/-- C2 — With no result-count cap (and a non-negative starting offset,
negative ones being malformed queries), the operation returns exactly the
upstream records from the starting offset onward that pass the
unsupported-filter evaluator, in upstream order. -/
theorem no_cap_exhaustive (args : ListArgs) (recs : List Expense)
    (hl : args.limit = none) (hoff : 0 ≤ args.offset.getD 0) :
    (listExpensesCore args (Source.ofList recs)).result =
      Except.ok ((recs.drop (args.offset.getD 0).toNat).filter
        (acceptsExpense (modeOf args) args.category_ids
          (args.search_text.map String.toLower)
          (args.search_fields.getD defaultSearchFields))) := by
  unfold listExpensesCore
  by_cases hs : (args.search_text.isSome || args.category_ids.isSome) = true
  · simp only [hs, if_true, hl, Option.map_none']
    show (runLoop (Source.ofList recs).records (Source.ofList recs).err _ true none
      (args.offset.getD 0) []).result.map (truncateCap none) = _
    rw [truncateCap_none_map]
    rw [show (Source.ofList recs).records = recs from rfl]
    rw [show (Source.ofList recs).err = (fun _ _ => none) from rfl]
    rw [runLoop_noCap_pure recs _ true (args.offset.getD 0) [] hoff]
    simp
  · have hst : args.search_text = none := by
      cases hx : args.search_text with
      | none => rfl
      | some s => exact absurd (by simp [hx]) hs
    have hct : args.category_ids = none := by
      cases hx : args.category_ids with
      | none => rfl
      | some s => exact absurd (by simp [hx]) hs
    simp only [hs, if_false, hl, Option.isSome_none, Bool.and_false,
      Bool.false_eq_true, Bool.false_eq_true]
    have hfp : fetchPage (Source.ofList recs) none args.offset =
        Except.ok (recs.drop ((args.offset.getD 0).toNat)) := by
      unfold fetchPage Source.ofList takeAmount
      simp only
      congr 1
      exact List.take_of_length_le (by simp)
    simp only [hfp]
    rw [hst, hct]
    simp only [Option.map_none']
    by_cases hmode : modeOf args = "include"
    · rw [if_neg (by simp [hmode])]
      have hall : ∀ e ∈ recs.drop ((args.offset.getD 0).toNat),
          acceptsExpense (modeOf args) none none
            (args.search_fields.getD defaultSearchFields) e = true := by
        intro e _
        rw [acceptsExpense_no_search_cat, if_pos hmode]
      rw [List.filter_eq_self.mpr hall]
    · rw [if_pos (by simp [bne_iff_ne, hmode])]
      congr 1
      apply List.filter_congr
      intro e _
      rw [acceptsExpense_no_search_cat, if_neg hmode]

/-- C5 (amended) — The single Page Source call with the caller's own
limit and offset happens precisely when no search text and no category-id
set is present AND (the mode is `include` or no cap is given); its output
is returned unfiltered only for mode `include`, the deletion filter being
applied client-side otherwise; in every remaining case the batched loop
runs, all of its calls carrying the fixed batch size 100. -/
theorem fast_path_characterisation (args : ListArgs) (src : Source) :
    ((args.search_text.isSome || args.category_ids.isSome) = false →
      ((modeOf args != "include") && args.limit.isSome) = false →
      (listExpensesCore args src).calls = [(args.limit, args.offset)]
      ∧ (modeOf args = "include" →
          (listExpensesCore args src).result = fetchPage src args.limit args.offset)
      ∧ (modeOf args ≠ "include" →
          ∀ v, fetchPage src args.limit args.offset = Except.ok v →
          (listExpensesCore args src).result =
            Except.ok (v.filter (deletedRetain (modeOf args)))))
    ∧ ((args.search_text.isSome || args.category_ids.isSome) = true
        ∨ ((modeOf args != "include") && args.limit.isSome) = true →
        ∀ c ∈ (listExpensesCore args src).calls, c.1 = some (100 : Int)) := by
  constructor
  · intro h1 h2
    unfold listExpensesCore
    simp only [h1, Bool.false_eq_true, if_false, h2]
    cases hfp : fetchPage src args.limit args.offset with
    | error m =>
      refine ⟨rfl, fun hm => rfl, fun hm v hv => ?_⟩
      simp at hv
    | ok v0 =>
      refine ⟨rfl, fun hm => by simp [hm], fun hm v hv => ?_⟩
      simp only [Except.ok.injEq] at hv
      subst hv
      simp [bne_iff_ne, hm]
  · intro hor c hc
    by_cases hs : (args.search_text.isSome || args.category_ids.isSome) = true
    · unfold listExpensesCore at hc
      simp only [hs, if_true, List.mem_map] at hc
      obtain ⟨o, _, rfl⟩ := hc
      rfl
    · have h2 : ((modeOf args != "include") && args.limit.isSome) = true := by
        rcases hor with h | h
        · exact absurd h hs
        · exact h
      unfold listExpensesCore at hc
      simp only [hs, Bool.false_eq_true, if_false, h2, if_true, List.mem_map] at hc
      obtain ⟨o, _, rfl⟩ := hc
      rfl

theorem runLoop_pure_ok (recs : List Expense) (filt : Expense → Bool) (ann : Bool)
    (cap : Option Nat) :
    ∀ (off : Int) (acc : List Expense),
    ∃ v, (runLoop recs (fun _ _ => none) filt ann cap off acc).result = Except.ok v := by
  intro off acc
  induction off, acc using runLoop.induct recs (fun _ _ => none) filt ann cap with
  | case1 off acc hcap =>
    rw [runLoop]
    simp [hcap]
  | case2 off acc hcap m hm => simp at hm
  | case3 off acc hcap hm hb =>
    rw [runLoop]
    simp [hcap, hb]
  | case4 off acc hcap hm hb ih =>
    rw [runLoop]
    simp only [hcap, if_false, Bool.false_eq_true]
    rw [dif_neg hb]
    simpa [consCall] using ih

/-- C7 (amended) — The operation performs no validation of the cap, the
offset or the field set: whatever they are (negative, empty, or
otherwise), against an error-free Page Source the call is not rejected —
it always returns a successful result. -/
theorem no_malformed_query_rejection (args : ListArgs) (recs : List Expense) :
    ∃ v, (listExpensesCore args (Source.ofList recs)).result = Except.ok v := by
  unfold listExpensesCore
  by_cases hs : (args.search_text.isSome || args.category_ids.isSome) = true
  · simp only [hs, if_true]
    obtain ⟨v, hv⟩ := runLoop_pure_ok recs
      (acceptsExpense (modeOf args) args.category_ids
        (args.search_text.map String.toLower) (args.search_fields.getD defaultSearchFields))
      true (args.limit.map usizeOfI32) (args.offset.getD 0) []
    exact ⟨truncateCap (args.limit.map usizeOfI32) v,
      by rw [show (Source.ofList recs).records = recs from rfl,
        show (Source.ofList recs).err = (fun _ _ => none) from rfl, hv]; rfl⟩
  · simp only [hs, Bool.false_eq_true, if_false]
    by_cases h2 : ((modeOf args != "include") && args.limit.isSome) = true
    · simp only [h2, if_true]
      obtain ⟨v, hv⟩ := runLoop_pure_ok recs (deletedRetain (modeOf args)) false
        (args.limit.map usizeOfI32) (args.offset.getD 0) []
      exact ⟨truncateCap (args.limit.map usizeOfI32) v,
        by rw [show (Source.ofList recs).records = recs from rfl,
          show (Source.ofList recs).err = (fun _ _ => none) from rfl, hv]; rfl⟩
    · simp only [h2, Bool.false_eq_true, if_false]
      have hfp : fetchPage (Source.ofList recs) args.limit args.offset =
          Except.ok ((recs.drop ((args.offset.getD 0).toNat)).take
            (takeAmount recs args.limit)) := rfl
      rw [hfp]
      exact ⟨_, rfl⟩

theorem getLast?_cons_of_getLast? {α : Type} (a : α) {l : List α} {o : α}
    (h : l.getLast? = some o) : (a :: l).getLast? = some o := by
  cases l with
  | nil => simp at h
  | cons b t => rw [List.getLast?_cons_cons]; exact h

theorem getLast?_map {α β : Type} (f : α → β) (l : List α) :
    (l.map f).getLast? = l.getLast?.map f := by
  induction l with
  | nil => simp
  | cons a t ih =>
    cases t with
    | nil => simp
    | cons b u => simpa [List.getLast?_cons_cons] using ih

theorem runLoop_error_shape (recs : List Expense)
    (err : Option Int → Option Int → Option String) (filt : Expense → Bool)
    (ann : Bool) (cap : Option Nat) :
    ∀ (off : Int) (acc : List Expense) (s : String),
    (runLoop recs err filt ann cap off acc).result = Except.error s →
    ∃ o m, err (some 100) (some o) = some m
      ∧ (runLoop recs err filt ann cap off acc).calls.getLast? = some o
      ∧ s = (if ann then fetchErrMsg o m else m) := by
  intro off acc
  induction off, acc using runLoop.induct recs err filt ann cap with
  | case1 off acc hcap =>
    intro s hs
    rw [runLoop] at hs
    simp [hcap] at hs
  | case2 off acc hcap m hm =>
    intro s hs
    rw [runLoop] at hs
    simp only [hcap, if_false, hm, Bool.false_eq_true] at hs
    refine ⟨off, m, hm, ?_, ?_⟩
    · rw [runLoop]
      simp [hcap, hm]
    · simp only [Except.error.injEq] at hs
      exact hs.symm
  | case3 off acc hcap hm hb =>
    intro s hs
    rw [runLoop] at hs
    simp [hcap, hm, hb] at hs
  | case4 off acc hcap hm hb ih =>
    intro s hs
    rw [runLoop] at hs
    simp only [hcap, if_false, hm, Bool.false_eq_true] at hs
    rw [dif_neg hb] at hs
    simp only [consCall] at hs
    obtain ⟨o, m, hom, hlast, hshape⟩ := ih s hs
    refine ⟨o, m, hom, ?_, hshape⟩
    rw [runLoop]
    simp only [hcap, if_false, hm, Bool.false_eq_true]
    rw [dif_neg hb]
    simp only [consCall]
    exact getLast?_cons_of_getLast? off hlast

/-- C8 (amended) — On any batch-fetch failure the operation fails fast:
no partial results are returned, the failing fetch is the last Page Source
call issued, and the propagated error is annotated with the offset in the
search/category batched path but passed through unannotated in the
deletion-with-cap batched path and in the single-call path. -/
theorem fetch_failure_fail_fast (args : ListArgs) (src : Source) (s : String)
    (herr : (listExpensesCore args src).result = Except.error s) :
    (listExpensesCore args src).calls ≠ []
    ∧ ((args.search_text.isSome || args.category_ids.isSome) = true →
        ∃ o m, src.err (some 100) (some o) = some m
          ∧ (listExpensesCore args src).calls.getLast? = some (some 100, some o)
          ∧ s = fetchErrMsg o m)
    ∧ ((args.search_text.isSome || args.category_ids.isSome) = false →
        ((modeOf args != "include") && args.limit.isSome) = true →
        ∃ o m, src.err (some 100) (some o) = some m
          ∧ (listExpensesCore args src).calls.getLast? = some (some 100, some o)
          ∧ s = m)
    ∧ ((args.search_text.isSome || args.category_ids.isSome) = false →
        ((modeOf args != "include") && args.limit.isSome) = false →
        src.err args.limit args.offset = some s
          ∧ (listExpensesCore args src).calls = [(args.limit, args.offset)]) := by
  by_cases hs : (args.search_text.isSome || args.category_ids.isSome) = true
  · unfold listExpensesCore at herr ⊢
    simp only [hs, if_true] at herr ⊢
    have hloop : (runLoop src.records src.err
        (acceptsExpense (modeOf args) args.category_ids
          (args.search_text.map String.toLower)
          (args.search_fields.getD defaultSearchFields))
        true (args.limit.map usizeOfI32) (args.offset.getD 0) []).result =
        Except.error s := by
      rcases hr : (runLoop src.records src.err
        (acceptsExpense (modeOf args) args.category_ids
          (args.search_text.map String.toLower)
          (args.search_fields.getD defaultSearchFields))
        true (args.limit.map usizeOfI32) (args.offset.getD 0) []).result with m | v
      · rw [hr] at herr
        simp only [Except.map] at herr
        rw [← herr]
      · rw [hr] at herr
        simp [Except.map] at herr
    obtain ⟨o, m, hom, hlast, hshape⟩ := runLoop_error_shape src.records src.err _
      true (args.limit.map usizeOfI32) (args.offset.getD 0) [] s hloop
    refine ⟨?_, fun _ => ⟨o, m, hom, ?_, by simpa using hshape⟩,
      fun hc _ => by first | exact hc.elim | simp at hc,
      fun hc _ => by first | exact hc.elim | simp at hc⟩
    · intro hnil
      rw [List.map_eq_nil_iff] at hnil
      rw [hnil] at hlast
      simp at hlast
    · rw [getLast?_map, hlast]
      rfl
  · have hsf : (args.search_text.isSome || args.category_ids.isSome) = false := by
      simpa using hs
    by_cases h2 : ((modeOf args != "include") && args.limit.isSome) = true
    · unfold listExpensesCore at herr ⊢
      simp only [hsf, Bool.false_eq_true, if_false, h2, if_true] at herr ⊢
      have hloop : (runLoop src.records src.err (deletedRetain (modeOf args)) false
          (args.limit.map usizeOfI32) (args.offset.getD 0) []).result =
          Except.error s := by
        rcases hr : (runLoop src.records src.err (deletedRetain (modeOf args)) false
          (args.limit.map usizeOfI32) (args.offset.getD 0) []).result with m | v
        · rw [hr] at herr
          simp only [Except.map] at herr
          rw [← herr]
        · rw [hr] at herr
          simp [Except.map] at herr
      obtain ⟨o, m, hom, hlast, hshape⟩ := runLoop_error_shape src.records src.err _
        false (args.limit.map usizeOfI32) (args.offset.getD 0) [] s hloop
      refine ⟨?_, fun hc => hc.elim,
        fun _ _ => ⟨o, m, hom, ?_, by simpa using hshape⟩,
        fun _ hc => by first | exact hc.elim | simp at hc⟩
      · intro hnil
        rw [List.map_eq_nil_iff] at hnil
        rw [hnil] at hlast
        simp at hlast
      · rw [getLast?_map, hlast]
        rfl
    · unfold listExpensesCore at herr ⊢
      simp only [hsf, Bool.false_eq_true, if_false,
        (by simpa using h2 : ((modeOf args != "include") && args.limit.isSome) = false)] at herr ⊢
      cases hfp : fetchPage src args.limit args.offset with
      | error m =>
        rw [hfp] at herr
        simp only [Except.error.injEq] at herr
        subst herr
        refine ⟨by simp, fun hc => hc.elim,
          fun _ hc => hc.elim, fun _ _ => ⟨?_, rfl⟩⟩
        unfold fetchPage at hfp
        cases he : src.err args.limit args.offset with
        | some m2 => rw [he] at hfp; simp at hfp; simp [he, hfp]
        | none => rw [he] at hfp; simp at hfp
      | ok v =>
        rw [hfp] at herr
        simp at herr

/-- A concrete user reference for fixtures. -/
def sampleUser : UserRef := ⟨7, "Ann", none, Json.null⟩

/-- A concrete expense fixture with the engine-relevant attributes set. -/
def mkExp (i : Int) (desc : String) (det : Option String) (cid : Int)
    (cname : String) (delAt : Option String) : Expense :=
  ⟨i, none, none, none, desc, false, none, false, none, none, det, 0, false, none,
    none, false, none, none, "10.0", "USD", Json.arr [], "2024-01-01", "2024-01-01",
    Json.null, "2024-01-01", Json.null, delAt, delAt.map (fun _ => sampleUser),
    ⟨cid, cname, none, Json.null⟩, Json.null, Json.arr []⟩

def eFood : Expense := mkExp 1 "Whole Foods run" none 12 "Groceries" none

def eDel : Expense := mkExp 2 "Old dinner" none 15 "Dining" (some "2024-01-02")

def eBus : Expense := mkExp 3 "Bus ticket" (some "city bus") 20 "Transport" none

def c5args : ListArgs := ⟨some 5, some 0, ["id"], none, none, none, some "include"⟩

def c5src : Source := Source.ofList [eDel, eFood]

/-- C5 counterexample — mode `include` with a result-count cap of 5: the
operation issues exactly one Page Source call carrying the caller's own
limit and offset and returns its output unfiltered (the deleted record
included), although the claim says a given cap forces the batched loop
with batch size 100. -/
theorem fast_path_cap_counterexample :
    c5args.limit = some 5
    ∧ (listExpensesCore c5args c5src).calls = [(some 5, some 0)]
    ∧ (listExpensesCore c5args c5src).result = Except.ok [eDel, eFood]
    ∧ eDel.deleted_at = some "2024-01-02" :=
  ⟨rfl, rfl, rfl, rfl⟩

def c7args : ListArgs := ⟨some (-1), some (-2), [], none, none, none, none⟩

/-- C7 counterexample — a call whose cap is −1, whose offset is −2 and
whose output field set is empty is not rejected: the operation issues a
Page Source call and returns a successful (empty) result. -/
theorem no_validation_counterexample :
    c7args.limit = some (-1) ∧ c7args.offset = some (-2) ∧ c7args.fields = []
    ∧ (listExpensesCore c7args (Source.ofList [])).result = Except.ok []
    ∧ (listExpensesCore c7args (Source.ofList [])).calls = [(some 100, some (-2))] := by
  have hu : usizeOfI32 (-1) = 18446744073709551615 := by
    unfold usizeOfI32
    norm_num
    rfl
  refine ⟨rfl, rfl, rfl, ?_, ?_⟩ <;>
    simp [listExpensesCore, c7args, modeOf, Source.ofList, hu, runLoop, capReached,
      batchAt, pushLoop, truncateCap, consCall, Except.map]

def c8args : ListArgs := ⟨some 5, none, ["id"], none, none, none, none⟩

def c8src : Source :=
  ⟨[eFood], fun _ o => if o = some 0 then some "boom" else none⟩

/-- C8 counterexample — in the deletion-filtering batched path (default
mode `exclude` with a cap, no search or category filter) a failing first
batch fetch propagates the raw upstream error with no offset annotation,
although the claim says every propagated batch error is annotated with
the offset. -/
theorem unannotated_error_counterexample :
    (listExpensesCore c8args c8src).result = Except.error "boom"
    ∧ (listExpensesCore c8args c8src).calls = [(some 100, some 0)]
    ∧ "boom" ≠ fetchErrMsg 0 "boom" := by
  have hu : usizeOfI32 5 = 5 := by
    unfold usizeOfI32
    norm_num
    rfl
  refine ⟨?_, ?_, by decide⟩ <;>
    simp [listExpensesCore, c8args, c8src, modeOf, hu, runLoop, capReached,
      batchAt, pushLoop, truncateCap, consCall, Except.map]

def w2args : ListArgs := ⟨none, none, ["id"], some "FOOD", none, none, none⟩

theorem no_cap_exhaustive_witness :
    w2args.limit = none ∧ (0 : Int) ≤ w2args.offset.getD 0 ∧
    (listExpensesCore w2args (Source.ofList [eFood, eDel, eBus])).result =
      Except.ok ((([eFood, eDel, eBus] : List Expense).drop
          (w2args.offset.getD 0).toNat).filter
        (acceptsExpense (modeOf w2args) w2args.category_ids
          (w2args.search_text.map String.toLower)
          (w2args.search_fields.getD defaultSearchFields))) :=
  ⟨rfl, by decide, no_cap_exhaustive w2args [eFood, eDel, eBus] rfl (by decide)⟩

def w3args : ListArgs := ⟨some 2, none, ["id"], some "o", none, none, none⟩

theorem cap_respected_witness :
    w3args.limit = some 2 ∧ (0 : Int) ≤ 2 ∧ (2 : Int) < 2 ^ 31 ∧
    ((∀ res, (listExpensesCore w3args (Source.ofList [eFood, eDel, eBus])).result =
        Except.ok res → res.length ≤ (2 : Int).toNat)
      ∧ ∀ n ∈ (listExpensesCore w3args (Source.ofList [eFood, eDel, eBus])).lens,
          n ≤ (2 : Int).toNat) :=
  ⟨rfl, by decide, by norm_num,
    cap_respected w3args (Source.ofList [eFood, eDel, eBus]) 2 rfl (by decide) (by norm_num)⟩

theorem loop_call_bound_witness :
    (0 : Int) ≤ 0 ∧
    (runLoop [eFood, eDel] (fun _ _ => none) (fun _ => true) true none 0 []).calls.length ≤
      (([eFood, eDel] : List Expense).length - (0 : Int).toNat + 99) / 100 + 1 :=
  ⟨by decide,
    loop_terminates_within_call_bound [eFood, eDel] (fun _ _ => none) (fun _ => true)
      true none 0 [] (by decide)⟩

theorem fetch_failure_fail_fast_witness :
    (listExpensesCore c8args c8src).result = Except.error "boom"
    ∧ ((listExpensesCore c8args c8src).calls ≠ []
      ∧ ((c8args.search_text.isSome || c8args.category_ids.isSome) = true →
          ∃ o m, c8src.err (some 100) (some o) = some m
            ∧ (listExpensesCore c8args c8src).calls.getLast? = some (some 100, some o)
            ∧ "boom" = fetchErrMsg o m)
      ∧ ((c8args.search_text.isSome || c8args.category_ids.isSome) = false →
          ((modeOf c8args != "include") && c8args.limit.isSome) = true →
          ∃ o m, c8src.err (some 100) (some o) = some m
            ∧ (listExpensesCore c8args c8src).calls.getLast? = some (some 100, some o)
            ∧ "boom" = m)
      ∧ ((c8args.search_text.isSome || c8args.category_ids.isSome) = false →
          ((modeOf c8args != "include") && c8args.limit.isSome) = false →
          c8src.err c8args.limit c8args.offset = some "boom"
            ∧ (listExpensesCore c8args c8src).calls = [(c8args.limit, c8args.offset)])) := by
  have hu : usizeOfI32 5 = 5 := by
    unfold usizeOfI32
    norm_num
    rfl
  have herr : (listExpensesCore c8args c8src).result = Except.error "boom" := by
    simp [listExpensesCore, c8args, c8src, modeOf, hu, runLoop, capReached,
      batchAt, pushLoop, truncateCap, consCall, Except.map]
  exact ⟨herr, fetch_failure_fail_fast c8args c8src "boom" herr⟩
